import Mathlib

/-!
Verification of the complete-command repository's specified behaviour.

The development shallowly embeds the Go sources:
* `internal/ui/action_model.go` (called "variant A" below) and the second
  copy of the action model found in the repository (called "variant B";
  it trims placeholders, dispatches `?` before `|`, falls back to the
  first tool with a template entry and formats list values per element),
* `internal/registry/registry.go` (YAML decoding, no validation),
* the preference store (`Load`/`Save`/`SetPreference`/`PreferredTool`),
* the shell-integration installer (`ToggleShellIntegration`).

Go strings are modelled as `List Char` (the sources only manipulate
ASCII); Go `float64` is modelled by `ℚ`; Go maps that the sources build
by insertion are modelled as association lists with first-match lookup.
-/

namespace CompleteCommand

/-- The whitespace class used by Go's `strings.Fields` / `strings.TrimSpace`
(`unicode.IsSpace`), restricted to the Latin-1 range that can occur in the
ASCII templates of this repository. -/
def goIsSpace (c : Char) : Bool :=
  c == ' ' || c == '\t' || c == '\n' || c == '\x0b' || c == '\x0c' || c == '\r'

/-- Go `strings.Join(fields, " ")`: words joined with a single space. -/
def joinSpace : List (List Char) → List Char
  | [] => []
  | w :: ws =>
    match ws with
    | [] => w
    | _ :: _ => w ++ ' ' :: joinSpace ws

/-- Fuel-indexed worker for `goFields` (structural recursion so that the
kernel can evaluate it on concrete inputs). The fuel is always at least the
length of the list, so the `0` case is unreachable from `goFields`. -/
def goFieldsFuel : Nat → List Char → List (List Char)
  | 0, _ => []
  | _ + 1, [] => []
  | fuel + 1, c :: rest =>
    if goIsSpace c then
      goFieldsFuel fuel rest
    else
      (c :: rest.takeWhile (fun d => !goIsSpace d)) ::
        goFieldsFuel fuel (rest.dropWhile (fun d => !goIsSpace d))

/-- Go `strings.Fields`: split around runs of whitespace, dropping empties. -/
def goFields (l : List Char) : List (List Char) :=
  goFieldsFuel l.length l

/-- The post-processing both template engines apply to the substituted
command: `strings.Join(strings.Fields(result), " ")`. -/
def collapse (l : List Char) : List Char :=
  joinSpace (goFields l)

/-- Go `strings.TrimSpace`. -/
def trimSpace (l : List Char) : List Char :=
  ((l.dropWhile goIsSpace).reverse.dropWhile goIsSpace).reverse

/-- Split a list at the first occurrence of `sep`: Go's
`strings.SplitN(s, sep, 2)` guarded by `strings.Contains(s, sep)` (the
result is `none` exactly when `sep` does not occur). -/
def splitFirst (sep : Char) : List Char → Option (List Char × List Char)
  | [] => none
  | c :: rest =>
    if c = sep then some ([], rest)
    else (splitFirst sep rest).map fun p => (c :: p.1, p.2)

/-- The dynamically-typed field values Go carries in
`map[string]interface{}`: the template engines dispatch on exactly these
types (`string`, `bool`, `int`, `float64`, `[]string`). -/
inductive GoValue where
  | str (s : String)
  | bool (b : Bool)
  | int (n : Int)
  | float (q : ℚ)
  | list (l : List String)
  deriving DecidableEq

/-- The value map handed to the template engines. -/
def Vals := List (String × GoValue)

instance : DecidableEq Vals := inferInstanceAs (DecidableEq (List (String × GoValue)))

/-- Decimal rendering of an integer, as Go's `strconv.Itoa`. -/
def intChars (n : Int) : List Char :=
  (toString n).data

/-- Model of Go's `%g` float formatting. The repository only ever formats
integral numeric values; for those `%g` prints the integer without a
decimal point, which this definition reproduces exactly. Non-integral
rationals fall back to the `ℚ` printer (never exercised by a theorem). -/
def ratG (q : ℚ) : List Char :=
  if q.den = 1 then intChars q.num else (toString q).data

/-- The Go type name of a tagged value, as it appears inside `fmt`
diagnostics such as `%!s(int=5)`. -/
def goTypeName : GoValue → List Char
  | .str _ => "string".data
  | .bool _ => "bool".data
  | .int _ => "int".data
  | .float _ => "float64".data
  | .list _ => "[]string".data

/-- Go `fmt.Sprint` / the `%v` verb on the tagged values above; a list
prints as its elements inside brackets, space-separated. -/
def goSprint : GoValue → List Char
  | .str s => s.data
  | .bool b => if b then "true".data else "false".data
  | .int n => intChars n
  | .float q => ratG q
  | .list l => '[' :: joinSpace (l.map String.data) ++ [']']

/-- Diagnostic Go emits for a verb whose operand has the wrong type,
e.g. `%!s(int=5)`. -/
def badVerb (c : Char) (v : GoValue) : List Char :=
  '%' :: '!' :: c :: '(' :: goTypeName v ++ '=' :: goSprint v ++ [')']

/-- One verb application of Go's `fmt.Sprintf`, for the verbs the
repository's templates use. -/
def verbOut (c : Char) (v : GoValue) : List Char :=
  if c = 's' then
    match v with
    | .str s => s.data
    | .list l => '[' :: joinSpace (l.map String.data) ++ [']']
    | v => badVerb 's' v
  else if c = 'd' then
    match v with
    | .int n => intChars n
    | v => badVerb 'd' v
  else if c = 'g' then
    match v with
    | .float q => ratG q
    | v => badVerb 'g' v
  else if c = 'v' then goSprint v
  else badVerb c v

/-- Go's `%!x(MISSING)` diagnostic for a verb with no remaining operand. -/
def missingVerb (c : Char) : List Char :=
  '%' :: '!' :: c :: "(MISSING)".data

/-- Worker for `goSprintf`: scans the format, substituting the single
operand at the first verb; later verbs print `MISSING`, and a format that
never consumed the operand gains Go's `EXTRA` suffix. -/
def sprintfAux (v : GoValue) : List Char → Bool → List Char
  | [], used =>
    if used then []
    else '%' :: '!' :: '(' :: "EXTRA ".data ++ goTypeName v ++ '=' :: goSprint v ++ [')']
  | c :: rest, used =>
    if c = '%' then
      match rest with
      | [] => "%!(NOVERB)".data ++ (if used then [] else sprintfAux v [] used)
      | c2 :: rest2 =>
        if c2 = '%' then '%' :: sprintfAux v rest2 used
        else if used then missingVerb c2 ++ sprintfAux v rest2 used
        else verbOut c2 v ++ sprintfAux v rest2 true
    else c :: sprintfAux v rest used

/-- Model of Go `fmt.Sprintf(format, v)` with a single operand, as both
template engines invoke it. -/
def goSprintf (format : List Char) (v : GoValue) : List Char :=
  sprintfAux v format false

/-- Stringification used by variant A's simple `{{key}}` substitution
(`action_model.go`, the explicit `switch` with a `fmt.Sprint` default). -/
def stringifyA : GoValue → List Char
  | .str s => s.data
  | .bool b => if b then "true".data else "false".data
  | .int n => intChars n
  | .float q => ratG q
  | .list l => goSprint (.list l)

/-- Stringification used by variant B's simple `{{key}}` substitution
(its `switch` has `string`, `int`, `float64` cases and a `fmt.Sprint`
default covering `bool` and `[]string`). -/
def stringifyB : GoValue → List Char
  | .str s => s.data
  | .int n => intChars n
  | .float q => ratG q
  | .bool b => goSprint (.bool b)
  | .list l => goSprint (.list l)

/-- Truthiness of variant A's conditional placeholder: the `switch` in
`action_model.go` has `bool`, `string`, `int`, `float64` cases and *no*
default, so a `[]string` value emits nothing. -/
def truthyA : GoValue → Bool
  | .bool b => b
  | .str s => s != ""
  | .int n => n != 0
  | .float q => q != 0
  | .list _ => false

/-- Truthiness of variant B's conditional placeholder: same typed cases,
plus a `default: include = val != nil` branch, which is true for every
present value — in particular for `[]string`. -/
def truthyB : GoValue → Bool
  | .bool b => b
  | .str s => s != ""
  | .int n => n != 0
  | .float q => q != 0
  | .list _ => true

/-- Variant A's placeholder interpreter (`action_model.go` lines 463-525):
`|` is tried first via `strings.Contains`, then `?`, then the simple
substitution; the body is not trimmed. Both arms of its
`HasPrefix(format, "%")` conditional call `fmt.Sprintf(format, v)`. -/
def processA (vals : Vals) (body : List Char) : List Char :=
  match splitFirst '|' body with
  | some (key, format) =>
    match vals.lookup (⟨key⟩ : String) with
    | some v => goSprintf format v
    | none => []
  | none =>
    match splitFirst '?' body with
    | some (key, flag) =>
      match vals.lookup (⟨key⟩ : String) with
      | some v => if truthyA v then flag else []
      | none => []
    | none =>
      match vals.lookup (⟨body⟩ : String) with
      | some v => stringifyA v
      | none => []

/-- Variant B's formatted arm for one value (its `switch` inside the
`|`-branch): lists render per element joined by single spaces, empty
strings render nothing, and `bool` has no case, so it renders nothing. -/
def formatB (format : List Char) : GoValue → List Char
  | .list l =>
    joinSpace (l.map fun entry =>
      if format.contains '%' then goSprintf format (.str entry) else format)
  | .str s =>
    if s != "" then
      (if format.contains '%' then goSprintf format (.str s) else format)
    else []
  | .int n => if format.contains '%' then goSprintf format (.int n) else format
  | .float q => if format.contains '%' then goSprintf format (.float q) else format
  | .bool _ => []

/-- Variant B's conditional arm: emit `cond` when the value is truthy,
formatting through `Sprintf` when `cond` carries a `%` verb (every case of
its inner `switch` calls `fmt.Sprintf(cond, v)`). -/
def condB (vals : Vals) (key : List Char) (cond : List Char) : List Char :=
  match vals.lookup (⟨trimSpace key⟩ : String) with
  | some v =>
    if truthyB v then
      (if cond.contains '%' then goSprintf cond v else cond)
    else []
  | none => []

/-- Variant B's placeholder interpreter: `?` is tried first but only at a
positive index (`strings.Index(placeholder, "?") > 0`), then `|` at a
positive index, then the simple substitution; keys are trimmed. -/
def processB (vals : Vals) (body : List Char) : List Char :=
  let simple :=
    match vals.lookup (⟨body⟩ : String) with
    | some v => stringifyB v
    | none => []
  let barCase :=
    match splitFirst '|' body with
    | some (key, format) =>
      if key = [] then simple
      else
        match vals.lookup (⟨trimSpace key⟩ : String) with
        | some v => formatB format v
        | none => []
    | none => simple
  match splitFirst '?' body with
  | some (key, cond) => if key = [] then barCase else condB vals key cond
  | none => barCase

/-- Locate the first `}}` in the text following a `{{`: returns the
placeholder body and the remainder after the closing braces, or `none`
when no `}}` occurs (Go's `strings.Index(s, "}}") == -1`). -/
def breakClose : List Char → Option (List Char × List Char)
  | [] => none
  | c :: rest =>
    if c = '}' ∧ rest.head? = some '}' then some ([], rest.tail)
    else (breakClose rest).map fun p => (c :: p.1, p.2)

/-- Fuel-indexed scanner for variant A (`buildCommand` in
`action_model.go`): literal bytes are copied, `{{body}}` is interpreted by
`processA` without trimming, and an unmatched `{{` copies the remainder
verbatim. The fuel is at least the length of the input, so the `0` case is
unreachable from `renderA`. -/
def scanAFuel (vals : Vals) : Nat → List Char → List Char
  | 0, l => l
  | _ + 1, [] => []
  | fuel + 1, c :: rest =>
    if c = '{' ∧ rest.head? = some '{' then
      match breakClose rest.tail with
      | none => c :: rest
      | some (body, after) => processA vals body ++ scanAFuel vals fuel after
    else
      c :: scanAFuel vals fuel rest

/-- Fuel-indexed scanner for variant B: identical template traversal, but
the placeholder body is passed through `strings.TrimSpace` and interpreted
by `processB`. -/
def scanBFuel (vals : Vals) : Nat → List Char → List Char
  | 0, l => l
  | _ + 1, [] => []
  | fuel + 1, c :: rest =>
    if c = '{' ∧ rest.head? = some '{' then
      match breakClose rest.tail with
      | none => c :: rest
      | some (body, after) => processB vals (trimSpace body) ++ scanBFuel vals fuel after
    else
      c :: scanBFuel vals fuel rest

/-- Variant A's full render of one template: substitution followed by the
whitespace collapse `strings.Join(strings.Fields(result), " ")`. -/
def renderA (vals : Vals) (template : String) : String :=
  ⟨collapse (scanAFuel vals template.data.length template.data)⟩

/-- Variant B's full render of one template. -/
def renderB (vals : Vals) (template : String) : String :=
  ⟨collapse (scanBFuel vals template.data.length template.data)⟩

/-- Go struct `registry.Field`: one declared input slot of an action. The `default`
carries the YAML-decoded dynamic value (Go `interface{}`); `min`/`max`
are `*float64` pointers. -/
structure Field where
  key : String := ""
  type : String := ""
  label : String := ""
  placeholder : String := ""
  default : Option GoValue := none
  choices : List String := []
  required : Bool := false
  min : Option ℚ := none
  max : Option ℚ := none
  showIf : String := ""
  entry : String := ""
  deriving DecidableEq

/-- Go struct `registry.Action`. The `template` map (Go `map[string]string`) is an
association list with unique keys and first-match lookup. -/
structure Action where
  id : String := ""
  title : String := ""
  synonyms : List String := []
  candidates : List String := []
  template : List (String × String) := []
  fields : List Field := []
  deriving DecidableEq

/-- Go struct `registry.Registry`. -/
structure Registry where
  actions : List Action := []
  deriving DecidableEq

/-- Go struct `config.Config`: `Preferences map[string]string`, where `none` models
Go's nil map (as produced by unmarshalling a document without the
`preferences` key). -/
structure Config where
  preferences : Option (List (String × String)) := none
  deriving DecidableEq

/-- Go map assignment `m[k] = v` on the association-list model: replace
the binding of `k` if present, else append. -/
def mapSet (l : List (String × String)) (k v : String) : List (String × String) :=
  match l with
  | [] => [(k, v)]
  | (k', v') :: rest => if k' = k then (k, v) :: rest else (k', v') :: mapSet rest k v

/-- Model of `Config.SetPreference`: initialises the nil map, then assigns. -/
def setPreference (c : Config) (actionID tool : String) : Config :=
  ⟨some (mapSet (c.preferences.getD []) actionID tool)⟩

/-- Model of `Config.PreferredTool`: the comma-ok map read
`t, ok := c.Preferences[actionID]` (zero value `""` when absent). -/
def preferredTool (c : Config) (actionID : String) : String × Bool :=
  match (c.preferences.getD []).lookup actionID with
  | some t => (t, true)
  | none => ("", false)

/-- The tool-list construction of `NewActionModel` (identical in both
variants): filter the candidates through the PATH probe, fall back to all
candidates when the filter is empty, then — when a config is present, the
action has a non-empty id and the stored preference occurs in the list —
swap the first occurrence of the preferred tool with the head
(`available[0], available[i] = available[i], available[0]`). -/
def findFirstIdx (pref : String) : List String → Option Nat
  | [] => none
  | t :: ts => if t = pref then some 0 else (findFirstIdx pref ts).map (· + 1)

/-- The swap of `NewActionModel`'s preference loop: the first occurrence
of the preferred tool exchanges places with the head (a simultaneous
assignment, so the former head lands at the preference's old index). -/
def swapFirst (pref : String) (l : List String) : List String :=
  match findFirstIdx pref l with
  | some i => (l.set 0 (l.getD i "")).set i (l.getD 0 "")
  | none => l

/-- The availability filter of `NewActionModel`: candidates found on the
PATH, or all candidates when that filter is empty. -/
def availableTools (action : Action) (has : String → Bool) : List String :=
  let available := action.candidates.filter has
  if available.isEmpty then action.candidates else available

/-- The ordered tool list of `NewActionModel`. -/
def orderedTools (action : Action) (has : String → Bool) (cfg : Option Config) :
    List String :=
  let available := availableTools action has
  match cfg with
  | none => available
  | some c =>
    if action.id ≠ "" then
      match (c.preferences.getD []).lookup action.id with
      | some pref => swapFirst pref available
      | none => available
    else available

/-- Variant A's template selection (`action_model.go` line 450):
`m.action.Template[m.tools[m.toolIdx]]` — a bare map index whose zero
value is the empty template; there is no fallback. -/
def buildCommandA (action : Action) (tools : List String) (toolIdx : Nat)
    (vals : Vals) : String :=
  renderA vals ((action.template.lookup (tools.getD toolIdx "")).getD "")

/-- The fallback loop of variant B's `buildCommand`: the template of the
first tool in the list that has an entry. -/
def firstTemplate (template : List (String × String)) : List String → Option String
  | [] => none
  | t :: ts =>
    match template.lookup t with
    | some s => some s
    | none => firstTemplate template ts

/-- Variant B's template selection: the selected tool's entry when
present, otherwise the first candidate's entry (the Go `tmpl` variable
keeps its zero value `""` when no tool has an entry). -/
def buildCommandB (action : Action) (tools : List String) (toolIdx : Nat)
    (vals : Vals) : String :=
  let tmpl :=
    match action.template.lookup (tools.getD toolIdx "") with
    | some t => t
    | none => (firstTemplate action.template tools).getD ""
  renderB vals tmpl

/-- Go's `int(f)` conversion of a `float64` bound: truncation toward
zero. -/
def ratTrunc (q : ℚ) : Int :=
  if 0 ≤ q.num then (q.num.toNat / q.den : Nat) else -((((-q.num).toNat / q.den : Nat) : Int))

/-- The mutable state of one `intFieldItem`. -/
structure IntField where
  val : Int
  min : Option ℚ := none
  max : Option ℚ := none
  deriving DecidableEq

/-- The mutable state of one `floatFieldItem`. -/
structure FloatField where
  val : ℚ
  min : Option ℚ := none
  max : Option ℚ := none
  deriving DecidableEq

/-- The `"+"` / `"-"` key events of `actionModel.Update` (identical in
both variants). -/
inductive AdjustOp where
  | inc
  | dec
  deriving DecidableEq

/-- Key `"+"` on an int item: `*v = *v + 1` — no bound is consulted. -/
def intAdjust (f : IntField) : AdjustOp → IntField
  | .inc => { f with val := f.val + 1 }
  | .dec =>
    match f.min with
    | some m => if f.val > ratTrunc m then { f with val := f.val - 1 } else f
    | none => if f.val > 0 then { f with val := f.val - 1 } else f

/-- Keys `"+"` / `"-"` on a float item: `+= 1.0`, and `-= 0.1` guarded by
`*val > minVal` when a min is declared (unguarded otherwise). -/
def floatAdjust (f : FloatField) : AdjustOp → FloatField
  | .inc => { f with val := f.val + 1 }
  | .dec =>
    match f.min with
    | some m => if f.val > m then { f with val := f.val - 1 / 10 } else f
    | none => { f with val := f.val - 1 / 10 }

/-- A sequence of adjust key events applied to an int item. -/
def intAdjustSeq (f : IntField) : List AdjustOp → IntField
  | [] => f
  | op :: ops => intAdjustSeq (intAdjust f op) ops

/-- A sequence of adjust key events applied to a float item. -/
def floatAdjustSeq (f : FloatField) : List AdjustOp → FloatField
  | [] => f
  | op :: ops => floatAdjustSeq (floatAdjust f op) ops

/-- The construction in `NewActionModel` of an int item from its field
definition: the default converts from the YAML-decoded `int`/`int64`/
`float64` (any other shape leaves the zero value 0), and the declared
bounds are carried over. -/
def intItemOfField (f : Field) : IntField :=
  { val :=
      match f.default with
      | some (.int n) => n
      | some (.float q) => ratTrunc q
      | _ => 0,
    min := f.min, max := f.max }

/-- JSON documents, the shape of the preference file
`<home>/.complete-command.json`. `Save` writes the tree
`encoding/json.MarshalIndent` serialises and `Load` reads the tree
`Unmarshal` parses; indentation and the library's sorted key order do not
affect the decoded result, so object entries keep insertion order here. -/
inductive Json where
  | null
  | bool (b : Bool)
  | num (q : ℚ)
  | str (s : String)
  | arr (l : List Json)
  | obj (fields : List (String × Json))

/-- One member of the inner `map[string]string` during unmarshalling:
the value must be a JSON string. -/
def decodeStrEntry (p : String × Json) (acc : Except String (List (String × String))) :
    Except String (List (String × String)) :=
  match acc with
  | .error e => .error e
  | .ok rest =>
    match p.2 with
    | .str s => .ok ((p.1, s) :: rest)
    | _ => .error "json: cannot unmarshal value into Go value of type string"

/-- Unmarshalling of the inner `map[string]string`: every member value
must be a JSON string; JSON `null` leaves the map nil. -/
def decodeStrMap (j : Json) : Except String (Option (List (String × String))) :=
  match j with
  | .null => .ok none
  | .obj fields =>
    (fields.foldr decodeStrEntry
      (.ok ([] : List (String × String)) : Except String (List (String × String)))).map some
  | _ => .error "json: cannot unmarshal value into Go value of type map[string]string"

/-- Model of `json.Unmarshal(data, &cfg)` for `config.Config`: the top level must
be an object (or `null`, which leaves the zero value); a missing
`preferences` key leaves the map nil. -/
def unmarshalConfig (j : Json) : Except String Config :=
  match j with
  | .null => .ok ⟨none⟩
  | .obj fields =>
    match fields.lookup "preferences" with
    | none => .ok ⟨none⟩
    | some v => (decodeStrMap v).map fun m => ⟨m⟩
  | _ => .error "json: cannot unmarshal value into Go value of type config.Config"

/-- Model of `json.MarshalIndent(cfg, ...)`: the `preferences` field is always
emitted; a nil map serialises as `null`. -/
def marshalConfig (c : Config) : Json :=
  match c.preferences with
  | none => .obj [("preferences", .null)]
  | some m => .obj [("preferences", .obj (m.map fun p => (p.1, .str p.2)))]

/-- Model of `config.Load` on a file modelled as `Option Json` (`none` = the file
does not exist): a missing file and a nil decoded map both become an
empty, non-nil preference map; malformed content surfaces the error. -/
def loadConfig (file : Option Json) : Except String Config :=
  match file with
  | none => .ok ⟨some []⟩
  | some j =>
    match unmarshalConfig j with
    | .error e => .error e
    | .ok cfg => .ok ⟨some (cfg.preferences.getD [])⟩

/-- Model of `config.Save`: replaces the file contents with the marshalled
configuration. -/
def saveConfig (c : Config) : Json :=
  marshalConfig c

/-- YAML documents, the shape of `registry.yaml` after `yaml.v3`
scalar resolution. -/
inductive Yaml where
  | null
  | bool (b : Bool)
  | int (n : Int)
  | float (q : ℚ)
  | str (s : String)
  | seq (l : List Yaml)
  | map (fields : List (String × Yaml))

/-- Error-propagating map over a list, as `yaml.v3` decodes sequences. -/
def mapMExcept (f : α → Except String β) : List α → Except String (List β)
  | [] => .ok []
  | a :: rest =>
    match f a with
    | .error e => .error e
    | .ok b =>
      match mapMExcept f rest with
      | .error e => .error e
      | .ok bs => .ok (b :: bs)

/-- Decode a YAML scalar into a struct field of type `string`. -/
def yamlStr (y : Yaml) : Except String String :=
  match y with
  | .str s => .ok s
  | _ => .error "yaml: cannot unmarshal into string"

/-- Decode a YAML node into `[]string`. -/
def yamlStrList (y : Yaml) : Except String (List String) :=
  match y with
  | .null => .ok []
  | .seq l => mapMExcept yamlStr l
  | _ => .error "yaml: cannot unmarshal into []string"

/-- Decode a YAML node into `map[string]string`. -/
def yamlStrMap (y : Yaml) : Except String (List (String × String)) :=
  match y with
  | .null => .ok []
  | .map fields =>
    mapMExcept
      (fun p =>
        match p.2 with
        | .str s => .ok (p.1, s)
        | _ => .error "yaml: cannot unmarshal into string")
      fields
  | _ => .error "yaml: cannot unmarshal into map[string]string"

/-- The YAML-decoded `interface{}` default, restricted to the scalar
shapes the action model's type switches inspect. -/
def yamlDynamic (y : Yaml) : Option GoValue :=
  match y with
  | .str s => some (.str s)
  | .bool b => some (.bool b)
  | .int n => some (.int n)
  | .float q => some (.float q)
  | _ => none

/-- Struct-field access for mapping nodes: a missing key leaves the Go
zero value. -/
def yamlGet (fields : List (String × Yaml)) (k : String)
    (dec : Yaml → Except String α) (dflt : α) : Except String α :=
  match fields.lookup k with
  | none => .ok dflt
  | some v => dec v

/-- Decode one `registry.Field` record. -/
def decodeField (y : Yaml) : Except String Field :=
  match y with
  | .map fs =>
    match yamlGet fs "key" yamlStr "" with
    | .error e => .error e
    | .ok key =>
    match yamlGet fs "type" yamlStr "" with
    | .error e => .error e
    | .ok type =>
    match yamlGet fs "label" yamlStr "" with
    | .error e => .error e
    | .ok label =>
    match yamlGet fs "placeholder" yamlStr "" with
    | .error e => .error e
    | .ok placeholder =>
    match yamlGet fs "choices" yamlStrList [] with
    | .error e => .error e
    | .ok choices =>
    match yamlGet fs "required" (fun v => match v with
        | .bool b => .ok b
        | _ => .error "yaml: cannot unmarshal into bool") false with
    | .error e => .error e
    | .ok required =>
    match yamlGet fs "min" (fun v => match v with
        | .int n => .ok (some (n : ℚ))
        | .float q => .ok (some q)
        | .null => .ok none
        | _ => .error "yaml: cannot unmarshal into float64") none with
    | .error e => .error e
    | .ok mn =>
    match yamlGet fs "max" (fun v => match v with
        | .int n => .ok (some (n : ℚ))
        | .float q => .ok (some q)
        | .null => .ok none
        | _ => .error "yaml: cannot unmarshal into float64") none with
    | .error e => .error e
    | .ok mx =>
    match yamlGet fs "showIf" yamlStr "" with
    | .error e => .error e
    | .ok showIf =>
    match yamlGet fs "entry" yamlStr "" with
    | .error e => .error e
    | .ok entry =>
      .ok { key := key, type := type, label := label, placeholder := placeholder,
            default := (fs.lookup "default").bind yamlDynamic,
            choices := choices, required := required, min := mn, max := mx,
            showIf := showIf, entry := entry }
  | _ => .error "yaml: cannot unmarshal into registry.Field"

/-- Decode one `registry.Action` record. -/
def decodeAction (y : Yaml) : Except String Action :=
  match y with
  | .map fs =>
    match yamlGet fs "id" yamlStr "" with
    | .error e => .error e
    | .ok id =>
    match yamlGet fs "title" yamlStr "" with
    | .error e => .error e
    | .ok title =>
    match yamlGet fs "synonyms" yamlStrList [] with
    | .error e => .error e
    | .ok synonyms =>
    match yamlGet fs "candidates" yamlStrList [] with
    | .error e => .error e
    | .ok candidates =>
    match yamlGet fs "template" yamlStrMap [] with
    | .error e => .error e
    | .ok template =>
    match yamlGet fs "fields" (fun v => match v with
        | .seq l => mapMExcept decodeField l
        | .null => .ok []
        | _ => .error "yaml: cannot unmarshal into []registry.Field") [] with
    | .error e => .error e
    | .ok fields =>
      .ok { id := id, title := title, synonyms := synonyms,
            candidates := candidates, template := template, fields := fields }
  | _ => .error "yaml: cannot unmarshal into registry.Action"

/-- Model of `registry.Parse`: decode the document into the `Registry` struct and
return it. The Go function performs no validation whatsoever — the YAML
decode is the only way it can fail. -/
def parseRegistry (y : Yaml) : Except String Registry :=
  match y with
  | .map fs =>
    match yamlGet fs "actions" (fun v => match v with
        | .seq l => mapMExcept decodeAction l
        | .null => .ok []
        | _ => .error "yaml: cannot unmarshal into []registry.Action") [] with
    | .error e => .error e
    | .ok actions => .ok ⟨actions⟩
  | _ => .error "yaml: cannot unmarshal into registry.Registry"

/-- The claimed schema invariant: every key of the template map occurs in
the candidate list. -/
def templateKeysSubset (a : Action) : Bool :=
  a.template.all fun p => a.candidates.contains p.1

/-- Prefix test on character lists (Go's byte-wise comparison). -/
def isPre : List Char → List Char → Bool
  | [], _ => true
  | _ :: _, [] => false
  | a :: as, b :: bs => a == b && isPre as bs

/-- Go `strings.Index(l, pat)`: index of the first occurrence, `none` for
Go's `-1`. -/
def strIndex (pat : List Char) : List Char → Option Nat
  | [] => if isPre pat [] then some 0 else none
  | c :: rest =>
    if isPre pat (c :: rest) then some 0
    else (strIndex pat rest).map (· + 1)

/-- Go `strings.TrimRight(s, "\n")`. -/
def trimRightNl (l : List Char) : List Char :=
  (l.reverse.dropWhile (fun c => c == '\n')).reverse

/-- Go `strings.TrimLeft(s, "\n")`. -/
def trimLeftNl (l : List Char) : List Char :=
  l.dropWhile (fun c => c == '\n')

/-- Go `strings.TrimPrefix(s, "\n")`: drops one leading newline. -/
def dropOneNl (l : List Char) : List Char :=
  match l with
  | '\n' :: rest => rest
  | l => l

/-- The literal region markers of the shell integration. -/
def beginMarker : String :=
  "# BEGIN complete-command integration"

/-- The end marker. -/
def endMarker : String :=
  "# END complete-command integration"

/-- The shell detected from `$SHELL`'s basename; anything unknown takes
the bash branch of the snippet switch (and the bash rc target). -/
inductive GoShell where
  | bash
  | zsh
  | fish
  | other
  deriving DecidableEq

/-- The bash snippet `ToggleShellIntegration` appends (also the default
for unknown shells), exactly as built by its `fmt.Sprintf`. -/
def bashSnippet (exePath : String) : String :=
  beginMarker ++ "\ncmdcraft() \x7b\n  local out\n  out=\"$(\"" ++ exePath ++
  "\" \"$@\")\" || return\n  [[ -z \"$out\" ]] && return\n  READLINE_LINE=\"$out\"\n  READLINE_POINT=$\x7b#READLINE_LINE\x7d\n\x7d\nbind -x '\"\\C-g\":cmdcraft'\n" ++
  endMarker ++ "\n"

/-- The zsh snippet. -/
def zshSnippet (exePath : String) : String :=
  beginMarker ++ "\ncmdcraft() \x7b\n  local out\n  out=\"$(\"" ++ exePath ++
  "\" \"$@\")\" || return\n  [[ -z \"$out\" ]] && return\n  LBUFFER=\"$out\"\n  RBUFFER=\"\"\n  zle redisplay\n\x7d\nzle -N cmdcraft\nbindkey '^G' cmdcraft\n" ++
  endMarker ++ "\n"

/-- The fish snippet. -/
def fishSnippet (exePath : String) : String :=
  beginMarker ++ "\nfunction cmdcraft\n    set -l out (" ++ exePath ++
  ")\n    or return\n    if test -n \"$out\"\n        commandline -r -- $out\n    end\nend\nbind \\cg cmdcraft\n" ++
  endMarker ++ "\n"

/-- The snippet switch of `ToggleShellIntegration`. -/
def snippetFor (sh : GoShell) (exePath : String) : String :=
  match sh with
  | .bash => bashSnippet exePath
  | .zsh => zshSnippet exePath
  | .fish => fishSnippet exePath
  | .other => bashSnippet exePath

/-- Model of `integration.ToggleShellIntegration(install)`, restricted to its
content transformation on the rc file (path selection and filesystem I/O
stripped). Returns the new file content and the status message. The
`install` argument is the nilable `*bool` flag: `none` toggles,
`some false` uninstalls, `some true` installs — and, faithfully to the
source, the install path appends the snippet even when the markers are
already present. -/
def toggleShellIntegration (install : Option Bool) (sh : GoShell)
    (exePath : String) (content : String) : String × String :=
  let cl := content.data
  let canRemove : Bool :=
    match strIndex beginMarker.data cl, strIndex endMarker.data cl with
    | some bi, some ei => decide (bi < ei)
    | _, _ => false
  let wantsRemoval : Bool :=
    match install with
    | some true => false
    | _ => true
  if canRemove && wantsRemoval then
    let bi := (strIndex beginMarker.data cl).getD 0
    let ei := (strIndex endMarker.data cl).getD 0
    let before := cl.take bi
    let after := dropOneNl (cl.drop (ei + endMarker.data.length))
    (⟨trimRightNl before ++ '\n' :: trimLeftNl after⟩,
     "Shell integration removed. Reload your shell for changes to take effect.")
  else if install = some false then
    (content, "Shell integration is not installed.")
  else
    let snip := (snippetFor sh exePath).data
    (⟨(if cl.length > 0 then trimRightNl cl ++ ['\n'] else []) ++ snip ++ ['\n']⟩,
     "Shell integration installed. Reload your shell for changes to take effect.")

/-- The `--install-shell` operation of `main`: `ToggleShellIntegration`
with a pointer to `true`. -/
def installShell (sh : GoShell) (exePath : String) (content : String) : String :=
  (toggleShellIntegration (some true) sh exePath content).1

/-- The rotation described by the spec's words ("rotate `pref` to the head
of `available`", preserving the relative order of the remaining tools),
stated for comparison with the source's swap. -/
def rotateToHeadSpec (pref : String) (l : List String) : List String :=
  pref :: l.erase pref

section HelperLemmas

theorem findFirstIdx_getD {pref : String} :
    ∀ {l : List String} {i : Nat}, findFirstIdx pref l = some i →
      i < l.length ∧ l.getD i "" = pref := by
  intro l
  induction l with
  | nil => intro i h; simp [findFirstIdx] at h
  | cons t ts ih =>
    intro i h
    by_cases ht : t = pref
    · simp [findFirstIdx, ht] at h
      subst h
      simp [ht]
    · simp [findFirstIdx, ht] at h
      obtain ⟨j, hj, rfl⟩ := h
      obtain ⟨h1, h2⟩ := ih hj
      refine ⟨by simpa using h1, ?_⟩
      simpa using h2

theorem splitFirst_eq_none {sep : Char} :
    ∀ {l : List Char}, sep ∉ l → splitFirst sep l = none := by
  intro l
  induction l with
  | nil => intro _; rfl
  | cons c rest ih =>
    intro h
    have hc : ¬ c = sep := fun hc => h (hc ▸ List.mem_cons_self c rest)
    have hrest : sep ∉ rest := fun hr => h (List.mem_cons_of_mem c hr)
    simp [splitFirst, hc, ih hrest]

theorem splitFirst_append {sep : Char} (post : List Char) :
    ∀ (pre : List Char), sep ∉ pre →
      splitFirst sep (pre ++ sep :: post) = some (pre, post) := by
  intro pre
  induction pre with
  | nil => intro _; simp [splitFirst]
  | cons c pre ih =>
    intro h
    have hc : ¬ c = sep := fun hc => h (hc ▸ List.mem_cons_self c pre)
    have hpre : sep ∉ pre := fun hr => h (List.mem_cons_of_mem c hr)
    simp [splitFirst, hc, ih hpre]

end HelperLemmas

section Fixtures

/-- The "context lines"-style bounded int field used by the claims about
numeric bounds: `min 0`, `max 3`, default `0`. -/
def ctxField : Field :=
  { key := "ctx", type := "int", default := some (.int 0), min := some 0, max := some 3 }

/-- The search action of scenario 6 restricted to the template/candidate
mismatch: candidates `[grep]`, template keyed by `rg`. -/
def mismatchDoc : Yaml :=
  .map [("actions", .seq [.map
    [("id", .str "findtext"),
     ("candidates", .seq [.str "grep"]),
     ("template", .map [("rg", .str "rg \x7b\x7bq\x7d\x7d")])]])]

/-- An action whose template map covers `grep` but not `rg`. -/
def fallbackAction : Action :=
  { id := "findtext", candidates := ["rg", "grep"],
    template := [("grep", "grep -r \x7b\x7bq\x7d\x7d .")] }

/-- Value map `{q: "foo"}`. -/
def valsFoo : Vals := [("q", GoValue.str "foo")]

/-- Value map `{q: ""}`. -/
def valsEmptyQ : Vals := [("q", GoValue.str "")]

/-- Value map `{files: ["a", "b c"]}`. -/
def valsFiles : Vals := [("files", GoValue.list ["a", "b c"])]

/-- Scenario template `"rg {{q?-F}} {{q}}"`. -/
def rgTemplate : String := "rg \x7b\x7bq?-F\x7d\x7d \x7b\x7bq\x7d\x7d"

/-- Scenario template `"tar {{files|-- %s}}"`. -/
def tarTemplate : String := "tar \x7b\x7bfiles|-- %s\x7d\x7d"

end Fixtures

/-- C1: the claim fails on the code. Take the int field with declared
bounds `[0, 3]` and default `0`: four `"+"` key events drive the value to
`4`, strictly above the declared max, because the increment handler adds
1 without consulting `max`. -/
theorem C1_counterexample :
    (intAdjustSeq (intItemOfField ctxField) [.inc, .inc, .inc, .inc]).val = 4 ∧
    ¬ (((intAdjustSeq (intItemOfField ctxField) [.inc, .inc, .inc, .inc]).val : ℚ) ≤ 3) := by
  constructor
  · decide
  · norm_num [ctxField, intItemOfField, intAdjustSeq, intAdjust]

/-- C1 (amended): only the lower bound survives, and only for int fields:
a `"-"` key event decrements an int item solely when the value exceeds
the (truncated) declared min, so starting at or above the min the value
stays at or above it after any sequence of `"+"`/`"-"` events; the
declared max is never consulted. -/
theorem C1_int_lower_bound (f : IntField) (m : ℚ) (ops : List AdjustOp)
    (hmin : f.min = some m) (h : ratTrunc m ≤ f.val) :
    ratTrunc m ≤ (intAdjustSeq f ops).val := by
  induction ops generalizing f with
  | nil => exact h
  | cons op ops ih =>
    refine ih (intAdjust f op) ?_ ?_
    · cases op with
      | inc => simpa [intAdjust] using hmin
      | dec =>
        simp only [intAdjust, hmin]
        by_cases hgt : f.val > ratTrunc m
        · simp [hgt]
        · simp [hgt, hmin]
    · cases op with
      | inc => simp only [intAdjust]; omega
      | dec =>
        simp only [intAdjust, hmin]
        by_cases hgt : f.val > ratTrunc m
        · simp only [if_pos hgt]; omega
        · simp only [if_neg hgt]; exact h

/-- C1 witness: the bounded field of the counterexample, driven down and
up again, never drops below its declared min. -/
theorem C1_int_lower_bound_witness :
    ratTrunc 0 ≤ (intAdjustSeq (intItemOfField ctxField)
      [.dec, .dec, .inc, .dec, .dec, .dec]).val :=
  C1_int_lower_bound (intItemOfField ctxField) 0
    [.dec, .dec, .inc, .dec, .dec, .dec] (by decide) (by decide)

set_option maxRecDepth 60000 in
/-- C4: `ToggleShellIntegration` with the install flag appends the
snippet even when the markers are already present, so installing twice
onto an initially empty bash rc file yields a different (doubled) file
than installing once. -/
theorem C4_install_twice_differs :
    installShell .bash "complete-command"
        (installShell .bash "complete-command" "") ≠
      installShell .bash "complete-command" "" := by
  decide

/-- C5: the claim fails on the code. With candidates `[rg, grep, ack]`,
every tool available and stored preference `ack`, `NewActionModel` swaps
`ack` with the head, producing `[ack, grep, rg]`; rotating `ack` to the
head as the claim states would preserve `rg` before `grep`, producing
`[ack, rg, grep]`. -/
theorem C5_counterexample :
    orderedTools { id := "x", candidates := ["rg", "grep", "ack"] } (fun _ => true)
        (some ⟨some [("x", "ack")]⟩) = ["ack", "grep", "rg"] ∧
    rotateToHeadSpec "ack" ["rg", "grep", "ack"] = ["ack", "rg", "grep"] ∧
    (["ack", "grep", "rg"] : List String) ≠ ["ack", "rg", "grep"] := by
  refine ⟨by decide, by decide, by decide⟩

/-- C5 (amended): the ordered tool list is the availability-filtered
candidate list (`availableTools`), and a stored preference found at index
`i` of that list is *swapped* with the head: the preferred tool moves to
position 0, the former head moves to position `i`, and every other
position is unchanged — the relative order of the remaining tools is not
preserved in general. -/
theorem C5_preference_swaps_to_head (action : Action) (has : String → Bool)
    (c : Config) (pref : String) (i : Nat)
    (hid : action.id ≠ "")
    (hpref : (c.preferences.getD []).lookup action.id = some pref)
    (hfind : findFirstIdx pref (availableTools action has) = some i) :
    (orderedTools action has (some c)).getD 0 "" = pref ∧
    (orderedTools action has (some c)).getD i "" = (availableTools action has).getD 0 "" ∧
    (∀ j, j ≠ 0 → j ≠ i →
      (orderedTools action has (some c)).getD j "" = (availableTools action has).getD j "") ∧
    (orderedTools action has (some c)).length = (availableTools action has).length := by
  have hord : orderedTools action has (some c) = swapFirst pref (availableTools action has) := by
    simp [orderedTools, hid, hpref]
  rw [hord]
  revert hfind
  generalize availableTools action has = l
  intro hfind
  obtain ⟨hilen, hip⟩ := findFirstIdx_getD hfind
  have hswap : swapFirst pref l = (l.set 0 (l.getD i "")).set i (l.getD 0 "") := by
    simp [swapFirst, hfind]
  have hlen0 : 0 < l.length := Nat.lt_of_le_of_lt (Nat.zero_le i) hilen
  rw [hswap]
  refine ⟨?_, ?_, ?_, ?_⟩
  · by_cases hi : i = 0
    · subst hi
      simp only [List.getD_eq_getElem?_getD]
      rw [List.getElem?_set_eq_of_lt _ (by simpa using hlen0)]
      simpa [List.getD_eq_getElem?_getD] using hip
    · simp only [List.getD_eq_getElem?_getD]
      rw [List.getElem?_set_ne (show i ≠ 0 from hi),
        List.getElem?_set_eq_of_lt _ hlen0]
      simpa [List.getD_eq_getElem?_getD] using hip
  · simp only [List.getD_eq_getElem?_getD]
    rw [List.getElem?_set_eq_of_lt _ (by simpa using hilen)]
    simp
  · intro j hj0 hji
    simp only [List.getD_eq_getElem?_getD]
    rw [List.getElem?_set_ne (show i ≠ j from fun h => hji h.symm),
      List.getElem?_set_ne (show 0 ≠ j from fun h => hj0 h.symm)]
  · simp

/-- C5 witness: the amended characterisation at the concrete
counterexample input. -/
theorem C5_preference_swaps_to_head_witness :
    (orderedTools { id := "x", candidates := ["rg", "grep", "ack"] } (fun _ => true)
      (some ⟨some [("x", "ack")]⟩)).getD 0 "" = "ack" :=
  (C5_preference_swaps_to_head { id := "x", candidates := ["rg", "grep", "ack"] }
    (fun _ => true) ⟨some [("x", "ack")]⟩ "ack" 2 (by decide) (by decide) (by decide)).1

section StoreLemmas

theorem mapSet_lookup_self : ∀ (l : List (String × String)) (k v : String),
    (mapSet l k v).lookup k = some v := by
  intro l k v
  induction l with
  | nil => simp [mapSet, List.lookup]
  | cons p rest ih =>
    by_cases hk : p.1 = k
    · simp [mapSet, hk, List.lookup]
    · simp only [mapSet, if_neg hk, List.lookup]
      have : (k == p.1) = false := by
        simp [hk]
        exact fun h => hk h.symm
      simp [this, ih]

theorem decodeStrEntry_foldr : ∀ (m : List (String × String)),
    (m.map fun p => (p.1, Json.str p.2)).foldr decodeStrEntry
      (.ok ([] : List (String × String)) : Except String (List (String × String))) = .ok m := by
  intro m
  induction m with
  | nil => rfl
  | cons p rest ih => simp [decodeStrEntry, ih]

theorem decodeStrMap_roundtrip (m : List (String × String)) :
    decodeStrMap (.obj (m.map fun p => (p.1, Json.str p.2))) = .ok (some m) := by
  simp [decodeStrMap, decodeStrEntry_foldr, Except.map]

end StoreLemmas

/-- C9: a preference written through `SetPreference` and `Save` is
recovered by `Load` and `PreferredTool`: for every starting store and
every action id / tool name, the round trip yields `(tool, true)`. -/
theorem C9_preference_roundtrip (c : Config) (a x : String) :
    (loadConfig (some (saveConfig (setPreference c a x)))).map
      (fun c2 => preferredTool c2 a) = .ok (x, true) := by
  have hm := decodeStrMap_roundtrip (mapSet (c.preferences.getD []) a x)
  simp [setPreference, saveConfig, marshalConfig, loadConfig, unmarshalConfig,
    List.lookup, hm, preferredTool, mapSet_lookup_self, Except.map]

/-- C10: loading a preference file whose JSON object lacks the
`preferences` key succeeds with an empty, non-nil map, and every
preference read on the result is `("", false)`. -/
theorem C10_missing_preferences_key (fields : List (String × Json)) (a : String)
    (h : fields.lookup "preferences" = none) :
    loadConfig (some (.obj fields)) = .ok ⟨some []⟩ ∧
    preferredTool ⟨some []⟩ a = ("", false) := by
  constructor
  · simp [loadConfig, unmarshalConfig, h]
  · rfl

/-- C10 witness: the document `{}` at a concrete action id. -/
theorem C10_missing_preferences_key_witness :
    loadConfig (some (.obj [])) = .ok ⟨some []⟩ ∧
    preferredTool ⟨some []⟩ "findtext" = ("", false) :=
  C10_missing_preferences_key [] "findtext" rfl

section RegistryLemmas

theorem yamlStrList_map (l : List String) :
    yamlStrList (.seq (l.map Yaml.str)) = .ok l := by
  induction l with
  | nil => rfl
  | cons s rest ih =>
    simp only [yamlStrList, List.map_cons, mapMExcept] at ih ⊢
    simp [yamlStr, ih]

theorem yamlStrMap_map (m : List (String × String)) :
    yamlStrMap (.map (m.map fun p => (p.1, Yaml.str p.2))) = .ok m := by
  induction m with
  | nil => rfl
  | cons p rest ih =>
    simp only [yamlStrMap, List.map_cons, mapMExcept] at ih ⊢
    simp [ih]

end RegistryLemmas

/-- A registry document with a single action carrying an id, candidate
list and template map (the shapes scenario 6 exercises). -/
def mkActionDoc (id : String) (cands : List String)
    (tmpl : List (String × String)) : Yaml :=
  .map [("actions", .seq [.map
    [("id", .str id),
     ("candidates", .seq (cands.map .str)),
     ("template", .map (tmpl.map fun p => (p.1, .str p.2)))]])]

/-- C2: the claim fails on the code. The document whose single action has
template key set `{rg}` but candidate list `[grep]` loads successfully —
`registry.Parse` performs no validation — even though the subset
invariant is violated. -/
theorem C2_counterexample :
    parseRegistry mismatchDoc =
      .ok ⟨[{ id := "findtext", candidates := ["grep"],
              template := [("rg", "rg \x7b\x7bq\x7d\x7d")] }]⟩ ∧
    templateKeysSubset
      { id := "findtext", candidates := ["grep"],
        template := [("rg", "rg \x7b\x7bq\x7d\x7d")] } = false := by
  exact ⟨by rfl, by decide⟩

/-- C2 (amended): registry load never checks the template keys against
the candidates: every single-action document of this shape — whatever the
relationship between its template keys and its candidate list — parses
successfully into the corresponding action. -/
theorem C2_parse_no_validation (id : String) (cands : List String)
    (tmpl : List (String × String)) :
    parseRegistry (mkActionDoc id cands tmpl) =
      .ok ⟨[{ id := id, candidates := cands, template := tmpl }]⟩ := by
  have hc := yamlStrList_map cands
  have ht := yamlStrMap_map tmpl
  simp [mkActionDoc, parseRegistry, decodeAction, yamlGet, List.lookup, mapMExcept,
    yamlStr, hc, ht]

/-- C3: the claim fails on the code. Variant A (`action_model.go`) has no
fallback: with tools `[rg, grep]`, the selection on `rg` and a template
only for `grep`, it renders the empty template and produces the empty
command instead of the `grep` rendering. -/
theorem C3_counterexample :
    buildCommandA fallbackAction ["rg", "grep"] 0 valsFoo = "" ∧
    renderA valsFoo "grep -r \x7b\x7bq\x7d\x7d ." = "grep -r foo ." ∧
    ("" : String) ≠ "grep -r foo ." := by
  exact ⟨by rfl, by rfl, by decide⟩

theorem firstTemplate_eq_find (tpl : List (String × String)) :
    ∀ ts : List String,
      firstTemplate tpl ts =
        (ts.find? fun t => (tpl.lookup t).isSome).bind fun t => tpl.lookup t := by
  intro ts
  induction ts with
  | nil => rfl
  | cons t ts ih =>
    cases htl : tpl.lookup t with
    | some s => simp [firstTemplate, htl, List.find?_cons]
    | none => simp [firstTemplate, htl, List.find?_cons, ih]

/-- C3 (amended): the fallback exists only in the variant-B model: when
the selected tool has no template entry, `buildCommand` renders the
template of the first tool in the ordered list that has one, and when no
tool has an entry it renders the empty template, producing the empty
command (no failure is signalled). Variant A has no fallback at all (see
the counterexample). -/
theorem C3_first_template_fallback (action : Action) (tools : List String)
    (idx : Nat) (vals : Vals)
    (h : action.template.lookup (tools.getD idx "") = none) :
    buildCommandB action tools idx vals =
      renderB vals ((firstTemplate action.template tools).getD "") ∧
    firstTemplate action.template tools =
      ((tools.find? fun t => (action.template.lookup t).isSome).bind
        fun t => action.template.lookup t) ∧
    ((∀ t ∈ tools, action.template.lookup t = none) →
      buildCommandB action tools idx vals = "") := by
  have h' : List.lookup (tools[idx]?.getD "") action.template = none := by
    simpa [List.getD_eq_getElem?_getD] using h
  have h1 : buildCommandB action tools idx vals =
      renderB vals ((firstTemplate action.template tools).getD "") := by
    simp [buildCommandB, h']
  refine ⟨h1, firstTemplate_eq_find action.template tools, ?_⟩
  intro hall
  have hnone : firstTemplate action.template tools = none := by
    rw [firstTemplate_eq_find]
    have : (tools.find? fun t => (action.template.lookup t).isSome) = none := by
      rw [List.find?_eq_none]
      intro t ht
      simp [hall t ht]
    simp [this]
  rw [h1, hnone]
  rfl

/-- C3 witness: the fallback at the counterexample's input — variant B
renders the `grep` template when `rg` is selected but has no entry. -/
theorem C3_first_template_fallback_witness :
    buildCommandB fallbackAction ["rg", "grep"] 0 valsFoo = "grep -r foo ." := by
  have h := (C3_first_template_fallback fallbackAction ["rg", "grep"] 0 valsFoo (by rfl)).1
  exact h.trans (by rfl)

/-- C6: the claim fails on the code. Variant A passes the whole `[]string`
value to one `fmt.Sprintf` application, so the claimed input renders as
`tar -- [a b c]`, not as the per-element `tar -- a -- b c`. -/
theorem C6_counterexample :
    renderA valsFiles tarTemplate = "tar -- [a b c]" ∧
    ("tar -- [a b c]" : String) ≠ "tar -- a -- b c" := by
  exact ⟨by rfl, by decide⟩

/-- C6 (amended): the per-element behaviour belongs to the variant-B
engine: a `{{key|fmt}}` placeholder (no `?` in the body, `|`-free
non-empty trimmed key) whose value is a list of strings renders as the
per-element applications of `fmt` joined by single spaces — so variant B
renders the claimed example to `tar -- a -- b c`, while variant A formats
the list in one application (see the counterexample). -/
theorem C6_list_per_element (key format : List Char) (l : List String) (vals : Vals)
    (hq1 : '?' ∉ key) (hq2 : '?' ∉ format) (hb : '|' ∉ key) (hne : key ≠ [])
    (htrim : trimSpace key = key)
    (hv : vals.lookup (⟨key⟩ : String) = some (.list l)) :
    processB vals (key ++ '|' :: format) =
      joinSpace (l.map fun entry =>
        if format.contains '%' then goSprintf format (.str entry) else format) := by
  have hq : ('?' : Char) ∉ key ++ '|' :: format := by
    intro hmem
    rcases List.mem_append.mp hmem with hmem | hmem
    · exact hq1 hmem
    · rcases List.mem_cons.mp hmem with hmem | hmem
      · exact absurd hmem (by decide)
      · exact hq2 hmem
  have h1 : splitFirst '?' (key ++ '|' :: format) = none := splitFirst_eq_none hq
  have h2 : splitFirst '|' (key ++ '|' :: format) = some (key, format) :=
    splitFirst_append format key hb
  simp only [processB, h1, h2]
  simp [hne, htrim, hv, formatB]

/-- C6 witness: the amended per-element rendering at the claim's concrete
placeholder. -/
theorem C6_list_per_element_witness :
    processB valsFiles ("files".data ++ '|' :: "-- %s".data) = "-- a -- b c".data := by
  have h := C6_list_per_element "files".data "-- %s".data ["a", "b c"] valsFiles
    (by decide) (by decide) (by decide) (by decide) (by decide) (by decide)
  exact h.trans (by decide)

/-- C7: conditional placeholders emit their literal exactly when the
value is truthy, with truthiness bool → itself, string → non-empty,
int → non-zero, float → non-zero and absent key → false. Variant A emits
the literal verbatim unconditionally of its content; variant B does so
for literals without a `%` verb (it formats the rest, per §4.D). Both
engines render the `rg {{q?-F}} {{q}}` scenarios as claimed. -/
theorem C7_conditional_truthiness :
    (∀ (key flag : List Char) (vals : Vals),
      '|' ∉ key → '|' ∉ flag → '?' ∉ key →
      processA vals (key ++ '?' :: flag) =
        (match vals.lookup (⟨key⟩ : String) with
         | some v => if truthyA v then flag else []
         | none => [])) ∧
    (∀ (key cond : List Char) (vals : Vals),
      '?' ∉ key → key ≠ [] → trimSpace key = key → '%' ∉ cond →
      processB vals (key ++ '?' :: cond) =
        (match vals.lookup (⟨key⟩ : String) with
         | some v => if truthyB v then cond else []
         | none => [])) ∧
    renderA valsFoo rgTemplate = "rg -F foo" ∧
    renderA valsEmptyQ rgTemplate = "rg" ∧
    renderB valsFoo rgTemplate = "rg -F foo" ∧
    renderB valsEmptyQ rgTemplate = "rg" := by
  refine ⟨?_, ?_, by rfl, by rfl, by rfl, by rfl⟩
  · intro key flag vals hb1 hb2 hq
    have hbar : ('|' : Char) ∉ key ++ '?' :: flag := by
      intro hmem
      rcases List.mem_append.mp hmem with hmem | hmem
      · exact hb1 hmem
      · rcases List.mem_cons.mp hmem with hmem | hmem
        · exact absurd hmem (by decide)
        · exact hb2 hmem
    have h1 : splitFirst '|' (key ++ '?' :: flag) = none := splitFirst_eq_none hbar
    have h2 : splitFirst '?' (key ++ '?' :: flag) = some (key, flag) :=
      splitFirst_append flag key hq
    simp only [processA, h1, h2]
  · intro key cond vals hq hne htrim hpct
    have h1 : splitFirst '?' (key ++ '?' :: cond) = some (key, cond) :=
      splitFirst_append cond key hq
    simp only [processB, h1]
    simp [hne, condB, htrim, hpct]

/-- C7 witness: the variant-A conditional at the claim's concrete input
`{{q?-F}}` with `q = "foo"`. -/
theorem C7_conditional_truthiness_witness :
    processA valsFoo ("q".data ++ '?' :: "-F".data) = "-F".data := by
  have h := C7_conditional_truthiness.1 "q".data "-F".data valsFoo
    (by decide) (by decide) (by decide)
  exact h.trans (by decide)

section WhitespaceLemmas

/-- The first character, if any, is not whitespace. -/
def noHeadSpace (l : List Char) : Bool :=
  match l.head? with
  | some c => !goIsSpace c
  | none => true

/-- The last character, if any, is not whitespace. -/
def noLastSpace (l : List Char) : Bool :=
  match l.getLast? with
  | some c => !goIsSpace c
  | none => true

/-- No two consecutive characters are both whitespace. -/
def noDoubleSpace : List Char → Bool
  | a :: b :: rest => (!(goIsSpace a && goIsSpace b)) && noDoubleSpace (b :: rest)
  | _ => true

/-- The emitted command is trimmed and single-space-delimited: no leading
or trailing whitespace and no run of two or more whitespace characters. -/
def singleSpaced (l : List Char) : Bool :=
  noHeadSpace l && noLastSpace l && noDoubleSpace l

theorem goFieldsFuel_clean : ∀ (fuel : Nat) (l : List Char),
    ∀ w ∈ goFieldsFuel fuel l, w ≠ [] ∧ ∀ c ∈ w, goIsSpace c = false := by
  intro fuel
  induction fuel with
  | zero => intro l w hw; simp [goFieldsFuel] at hw
  | succ fuel ih =>
    intro l w hw
    cases l with
    | nil => simp [goFieldsFuel] at hw
    | cons c rest =>
      cases hsp : goIsSpace c with
      | true =>
        rw [goFieldsFuel, if_pos (by simp [hsp])] at hw
        exact ih rest w hw
      | false =>
        rw [goFieldsFuel, if_neg (by simp [hsp])] at hw
        rcases List.mem_cons.mp hw with hw | hw
        · subst hw
          refine ⟨by simp, ?_⟩
          intro d hd
          rcases List.mem_cons.mp hd with hd | hd
          · subst hd; exact hsp
          · have := List.mem_takeWhile_imp hd
            simpa using this
        · exact ih _ w hw

theorem noDouble_of_clean : ∀ (w : List Char),
    (∀ c ∈ w, goIsSpace c = false) → noDoubleSpace w = true := by
  intro w
  induction w with
  | nil => intro _; rfl
  | cons a w ih =>
    intro h
    cases w with
    | nil => rfl
    | cons b w' =>
      have ha : goIsSpace a = false := h a (List.mem_cons_self a _)
      have hrest : ∀ c ∈ b :: w', goIsSpace c = false :=
        fun c hc => h c (List.mem_cons_of_mem a hc)
      simp [noDoubleSpace, ha, ih hrest]

theorem noDouble_append_clean : ∀ (w t : List Char), w ≠ [] →
    (∀ c ∈ w, goIsSpace c = false) →
    noDoubleSpace (w ++ t) = noDoubleSpace t := by
  intro w
  induction w with
  | nil => intro t h; exact absurd rfl h
  | cons a w ih =>
    intro t _ h
    have ha : goIsSpace a = false := h a (List.mem_cons_self a _)
    cases w with
    | nil =>
      cases t with
      | nil => rfl
      | cons b t' => simp [noDoubleSpace, ha]
    | cons a2 w' =>
      have hrest : ∀ c ∈ a2 :: w', goIsSpace c = false :=
        fun c hc => h c (List.mem_cons_of_mem a hc)
      have := ih t (by simp) hrest
      simpa [noDoubleSpace, ha] using this

theorem joinSpace_ne_nil : ∀ (ws : List (List Char)),
    (∀ w ∈ ws, w ≠ []) → ws ≠ [] → joinSpace ws ≠ [] := by
  intro ws hclean hne
  cases ws with
  | nil => exact absurd rfl hne
  | cons w ws' =>
    cases ws' with
    | nil => exact hclean w (List.mem_cons_self w _)
    | cons w2 ws'' =>
      have hw : w ≠ [] := hclean w (List.mem_cons_self w _)
      cases w with
      | nil => exact absurd rfl hw
      | cons c w' => simp [joinSpace]

theorem joinSpace_noHead : ∀ (ws : List (List Char)),
    (∀ w ∈ ws, w ≠ [] ∧ ∀ c ∈ w, goIsSpace c = false) →
    noHeadSpace (joinSpace ws) = true := by
  intro ws hclean
  cases ws with
  | nil => rfl
  | cons w ws' =>
    obtain ⟨hw, hwc⟩ := hclean w (List.mem_cons_self w _)
    cases w with
    | nil => exact absurd rfl hw
    | cons c w' =>
      have hc : goIsSpace c = false := hwc c (List.mem_cons_self c _)
      cases ws' with
      | nil => simp [joinSpace, noHeadSpace, hc]
      | cons w2 ws'' => simp [joinSpace, noHeadSpace, hc]

theorem joinSpace_noLast : ∀ (ws : List (List Char)),
    (∀ w ∈ ws, w ≠ [] ∧ ∀ c ∈ w, goIsSpace c = false) →
    noLastSpace (joinSpace ws) = true := by
  intro ws
  induction ws with
  | nil => intro _; rfl
  | cons w ws' ih =>
    intro hclean
    obtain ⟨hw, hwc⟩ := hclean w (List.mem_cons_self w _)
    have hrest : ∀ w' ∈ ws', w' ≠ [] ∧ ∀ c ∈ w', goIsSpace c = false :=
      fun u hu => hclean u (List.mem_cons_of_mem w hu)
    cases ws' with
    | nil =>
      -- a single clean word: its last character is one of its characters
      show noLastSpace w = true
      clear hclean ih
      induction w with
      | nil => rfl
      | cons a w' ihw =>
        cases w' with
        | nil =>
          have := hwc a (List.mem_cons_self a _)
          simp [noLastSpace, this]
        | cons b w'' =>
          have hwc' : ∀ c ∈ b :: w'', goIsSpace c = false :=
            fun c hc => hwc c (List.mem_cons_of_mem a hc)
          have := ihw (by simp) hwc'
          simpa [noLastSpace, List.getLast?_cons_cons] using this
    | cons w2 ws'' =>
      have hne : joinSpace (w2 :: ws'') ≠ [] :=
        joinSpace_ne_nil (w2 :: ws'') (fun u hu => (hrest u hu).1) (by simp)
      have hj := ih hrest
      show noLastSpace (w ++ ' ' :: joinSpace (w2 :: ws'')) = true
      cases hjl : joinSpace (w2 :: ws'') with
      | nil => exact absurd hjl hne
      | cons j js =>
        rw [hjl] at hj
        unfold noLastSpace at hj ⊢
        rw [List.getLast?_append]
        simpa [List.getLast?_cons_cons] using hj

theorem joinSpace_noDouble : ∀ (ws : List (List Char)),
    (∀ w ∈ ws, w ≠ [] ∧ ∀ c ∈ w, goIsSpace c = false) →
    noDoubleSpace (joinSpace ws) = true := by
  intro ws
  induction ws with
  | nil => intro _; rfl
  | cons w ws' ih =>
    intro hclean
    obtain ⟨hw, hwc⟩ := hclean w (List.mem_cons_self w _)
    have hrest : ∀ w' ∈ ws', w' ≠ [] ∧ ∀ c ∈ w', goIsSpace c = false :=
      fun u hu => hclean u (List.mem_cons_of_mem w hu)
    cases ws' with
    | nil => exact noDouble_of_clean w hwc
    | cons w2 ws'' =>
      have hne : joinSpace (w2 :: ws'') ≠ [] :=
        joinSpace_ne_nil (w2 :: ws'') (fun u hu => (hrest u hu).1) (by simp)
      have hhead := joinSpace_noHead (w2 :: ws'') hrest
      have hj := ih hrest
      show noDoubleSpace (w ++ ' ' :: joinSpace (w2 :: ws'')) = true
      rw [noDouble_append_clean w _ hw hwc]
      cases hjl : joinSpace (w2 :: ws'') with
      | nil => exact absurd hjl hne
      | cons j js =>
        rw [hjl] at hhead hj
        have hjc : goIsSpace j = false := by
          simpa [noHeadSpace] using hhead
        simp [noDoubleSpace, hjc] at hj ⊢
        exact hj

/-- The collapse step always yields a trimmed, single-spaced string. -/
theorem collapse_singleSpaced (l : List Char) : singleSpaced (collapse l) = true := by
  have hclean := goFieldsFuel_clean l.length l
  unfold collapse goFields
  unfold singleSpaced
  rw [joinSpace_noHead _ hclean, joinSpace_noLast _ hclean, joinSpace_noDouble _ hclean]
  rfl

end WhitespaceLemmas

/-- C8: every rendered command — from either engine variant, for every
template and value map — has no leading or trailing whitespace and no run
of two or more consecutive whitespace characters, because both engines
end with `strings.Join(strings.Fields(result), " ")`. -/
theorem C8_output_single_spaced (template : String) (vals : Vals) :
    singleSpaced (renderA vals template).data = true ∧
    singleSpaced (renderB vals template).data = true :=
  ⟨collapse_singleSpaced _, collapse_singleSpaced _⟩

end CompleteCommand
